import Mathlib

/-
Verification of the manimgenie remote-execution client.

The repository has two Python files: `manimgenie/sessionpythonrepltool.py`
(a thin HTTP client around an Azure dynamic-sessions pool, plus a markdown
code-block extractor) and `app.py` (chat orchestration). This file gives a
shallow embedding of the parts the claims are about:

  * `extract_markdown_code_blocks` embeds the regex scan
    findall of the pattern  triple-backtick, optional whitespace-then-tag,
    newline, lazy body, triple-backtick  over the input text;
  * `searchClass` / `find_class_name` embed re.search of the pattern
    "class", one-or-more whitespace, one-or-more word characters;
  * the HTTP-facing methods (`createfile`, `execute`, `download_file`) are
    embedded as pure functions of the responses the remote returns to the
    successive requests; `raise_for_status` raises exactly for status codes
    400..599, and a raised error carries the response body text;
  * the access-token provider is embedded as a function of the cached
    token, the current time (POSIX seconds) and the token a fresh
    credential acquisition would return;
  * the class-level default of `session_id` (str(uuid4()) evaluated once,
    at class-definition time) is embedded as a single fixed string.

Python's `\w` and `\s` are modelled over their ASCII core; the inputs in
every statement below are ASCII.
-/

namespace ManimGenie

/-- A code block extracted from an agent message (dataclass CodeBlock). -/
structure CodeBlock where
  code : String
  language : String
deriving DecidableEq, Repr

/-- ASCII core of the regex class backslash-s (Python whitespace). -/
def isPySpace (c : Char) : Bool :=
  c == ' ' || c == '\t' || c == '\n' || c == '\r' || c == '\x0b' || c == '\x0c'

/-- ASCII core of the regex class backslash-w (word characters). -/
def isWordChar (c : Char) : Bool :=
  c.isAlphanum || c == '_'

/-- The language-tag character class of the code-block pattern: word
characters plus plus and minus. -/
def isTagChar (c : Char) : Bool :=
  isWordChar c || c == '+' || c == '-'

/-- Split a character list at the first occurrence of a triple backtick:
`some (before, after)` when one exists (the lazy body / the fence search of
the regex), `none` otherwise. -/
def splitFence : List Char → Option (List Char × List Char)
  | [] => none
  | c :: rest =>
    if c = '`' ∧ rest.take 2 = ['`', '`'] then some ([], rest.drop 2)
    else
      match splitFence rest with
      | none => none
      | some (p, r) => some (c :: p, r)

/-- The open-fence tail of the pattern: after the opening triple backtick,
optional (greedy whitespace then a nonempty greedy tag token) then a
newline, else just a newline. Returns the captured tag (empty if the
optional group did not participate) and the characters after the newline.
The greedy groups admit exactly one viable split because whitespace, tag
characters and the newline are pairwise disjoint, so this function is the
backtracking regex's behaviour. -/
def tryOpenTag (cs : List Char) : Option (List Char × List Char) :=
  let afterWs := cs.dropWhile isPySpace
  let tag := afterWs.takeWhile isTagChar
  let afterTag := afterWs.dropWhile isTagChar
  if tag ≠ [] ∧ afterTag.head? = some '\n' then some (tag, afterTag.tail)
  else if cs.head? = some '\n' then some (([] : List Char), cs.tail)
  else none

/-- Match the code-block pattern right after an opening triple backtick:
the open-fence tail, then the lazy body up to the next triple backtick.
Returns the block and the characters after the closing fence. -/
def matchAfterFence (cs : List Char) : Option (CodeBlock × List Char) :=
  (tryOpenTag cs).bind fun ta =>
    (splitFence ta.2).map fun cr => (⟨String.mk cr.1, String.mk ta.1⟩, cr.2)

/-- One scan step at an opening fence: try to match the pattern after it;
on success emit the block and continue after the match (findall is
non-overlapping), on failure re-scan one character further (drop the
first backtick of the failed fence). -/
def scanStep (k : List Char → List CodeBlock) (rest : List Char) : List CodeBlock :=
  match matchAfterFence rest with
  | some br => br.1 :: k br.2
  | none => k ('`' :: '`' :: rest)

/-- Fuelled scan: find the next opening fence and take a scan step there.
The fuel only bounds recursion depth; `scanBlocks` supplies enough for it
never to run out. -/
def scanBlocksAux : Nat → List Char → List CodeBlock
  | 0, _ => []
  | fuel + 1, cs =>
    match splitFence cs with
    | none => []
    | some pr => scanStep (scanBlocksAux fuel) pr.2

/-- All pattern matches in document order (re.findall). -/
def scanBlocks (cs : List Char) : List CodeBlock :=
  scanBlocksAux (cs.length + 1) cs

/-- extract_markdown_code_blocks: one CodeBlock per regex match, in
document order. (The source strips the captured tag; the capture is a run
of tag characters, so stripping is the identity and is omitted.) -/
def extract_markdown_code_blocks (markdown_text : String) : List CodeBlock :=
  scanBlocks markdown_text.data

/-- The five characters of the literal "class" in the scene-name pattern. -/
def classChars : List Char := ['c', 'l', 'a', 's', 's']

/-- Whether the scene-name pattern's literal "class" starts here. -/
def startsWithClass (cs : List Char) : Bool :=
  decide (cs.take 5 = classChars)

/-- Match the scene-name pattern at this position: the literal "class",
then one-or-more whitespace (greedy), then one-or-more word characters
(greedy, the captured identifier). -/
def matchClassAt (cs : List Char) : Option (List Char) :=
  if startsWithClass cs then
    let rest := cs.drop 5
    let ws := rest.takeWhile isPySpace
    let ident := (rest.dropWhile isPySpace).takeWhile isWordChar
    if ws ≠ [] ∧ ident ≠ [] then some ident else none
  else none

/-- re.search of the scene-name pattern: the match at the leftmost
position where the whole pattern matches, `none` when there is none. -/
def searchClass : List Char → Option (List Char)
  | [] => none
  | c :: cs =>
    match matchClassAt (c :: cs) with
    | some ident => some ident
    | none => searchClass cs

/-- Scene-name extraction as used by `_run` and by app.py's exec_step:
the identifier captured at the first match of the pattern, if any. -/
def find_class_name (code : String) : Option String :=
  (searchClass code.data).map String.mk

/-- An HTTP response as the client sees it: status code and body text.
For the create and download endpoints the body is opaque text; the
raised-error value carries it (requests' HTTPError keeps the response). -/
structure HttpResponse where
  status_code : Nat
  text : String
deriving DecidableEq, Repr

/-- The parsed JSON payload of a generate-endpoint response:
the three fields `_run` reads, each possibly absent. -/
structure ExecResponse where
  status : Option String
  output : Option String
  message : Option String
deriving DecidableEq, Repr

/-- A generate-endpoint response: status code, parsed JSON body, raw text. -/
structure JsonHttpResponse where
  status_code : Nat
  body : ExecResponse
  text : String
deriving DecidableEq, Repr

/-- response.raise_for_status() raises exactly for 4xx and 5xx codes. -/
def raisesForStatus (status_code : Nat) : Bool :=
  decide (400 ≤ status_code ∧ status_code < 600)

/-- User agent string sent with every request. -/
def USER_AGENT : String := "langchain-azure-dynamic-manim/custom (Language=Python)"

/-- Characters urllib.parse.quote leaves as-is with the default safe set:
unreserved characters plus the slash. -/
def isUrlSafe (c : Char) : Bool :=
  c.isAlphanum || c == '_' || c == '.' || c == '-' || c == '~' || c == '/'

/-- Upper-case hex digit of a value below 16. -/
def hexDigit (n : Nat) : Char :=
  if n < 10 then Char.ofNat (48 + n) else Char.ofNat (55 + n)

/-- Percent-encoding of one byte. -/
def percentEncodeByte (b : Nat) : List Char :=
  ['%', hexDigit (b / 16), hexDigit (b % 16)]

/-- urllib.parse.quote: keep safe characters, percent-encode the UTF-8
bytes of the rest. -/
def urlQuote (s : String) : String :=
  String.mk (List.flatten (s.data.map fun c =>
    if isUrlSafe c then [c]
    else List.flatten ((String.utf8EncodeChar c).map fun b => percentEncodeByte b.toNat)))

/-- _build_url: raises a ValueError when the endpoint is unset (empty
string is falsy); otherwise appends a trailing slash when missing, then
the path, then the session-identifier query parameter, percent-encoded,
with the separator chosen by whether the endpoint already has a query. -/
def build_url (pool_management_endpoint session_id path : String) : Except String String :=
  if pool_management_endpoint = "" then Except.error "pool_management_endpoint is not set"
  else
    let ep := if pool_management_endpoint.endsWith "/" then pool_management_endpoint
              else pool_management_endpoint ++ "/"
    let query := "identifier=" ++ urlQuote session_id
    let sep := if ep.contains '?' then "&" else "?"
    Except.ok (ep ++ path ++ sep ++ query)

/-- An HTTP request as the client builds it: url, headers, raw body. -/
structure HttpRequest where
  url : String
  headers : List (String × String)
  body : String
deriving DecidableEq, Repr

/-- The request `createfile` sends: url from _build_url with path
"manim/create"; bearer-token, JSON content-type and user-agent headers;
body the raw UTF-8 bytes of the filename line scene_name ++ ".py", a
newline, and the code verbatim (BytesIO of the concatenation; no JSON
encoding, no call to _sanitize_input). -/
def createfile_request (endpoint session_id token pythoncode scene_name : String) :
    Except String HttpRequest :=
  match build_url endpoint session_id "manim/create" with
  | Except.error e => Except.error e
  | Except.ok url =>
    Except.ok
      { url := url
        headers := [("Authorization", "Bearer " ++ token),
                    ("Content-Type", "application/json"),
                    ("User-Agent", USER_AGENT)]
        body := (scene_name ++ ".py") ++ "\n" ++ pythoncode }

/-- createfile's handling of the response: raise_for_status re-raises
(carrying the body) for 4xx/5xx; then `return True` when the status code
is 200, and Python's implicit `return None` otherwise. -/
def createfile_result (response : HttpResponse) : Except String (Option Bool) :=
  if raisesForStatus response.status_code then Except.error response.text
  else if response.status_code = 200 then Except.ok (some true)
  else Except.ok none

/-- execute's control flow as a function of the response to the first
request and the response the retry would get. On a raising first status:
if it is 500, post again and raise_for_status on the retry, else re-raise
the first error. The value is the parsed JSON of whichever response was
returned, paired with how many requests were made. -/
def execute_result (r1 r2 : JsonHttpResponse) : Except String ExecResponse × Nat :=
  if raisesForStatus r1.status_code then
    if r1.status_code = 500 then
      if raisesForStatus r2.status_code then (Except.error r2.text, 2)
      else (Except.ok r2.body, 2)
    else (Except.error r1.text, 1)
  else (Except.ok r1.body, 1)

/-- The body of the download request: the path argument with stray single
quotes stripped. -/
def download_request_body (remote_file_path : String) : String :=
  remote_file_path.replace "'" ""

/-- download_file's control flow as a function of the two possible
responses. On a raising first status: if it is 404, post again and
raise_for_status on the retry; then `raise e` runs UNCONDITIONALLY (the
source has no `else` before it, unlike execute), so even a successful
retry ends in the original exception. The value is paired with how many
requests were made. -/
def download_file_result (r1 r2 : HttpResponse) : Except String String × Nat :=
  if raisesForStatus r1.status_code then
    if r1.status_code = 404 then
      if raisesForStatus r2.status_code then (Except.error r2.text, 2)
      else (Except.error r1.text, 2)
    else (Except.error r1.text, 1)
  else (Except.ok r1.text, 1)

/-- An access token: the token string and its expiry (POSIX seconds). -/
structure AccessToken where
  token : String
  expires_on : Int
deriving DecidableEq, Repr

/-- The provider closed over by _access_token_provider_factory, as a
function of the cached token, the current time (POSIX seconds) and the
token a fresh credential acquisition would return. A fresh acquisition is
performed when nothing is cached or the cached expiry is strictly before
now plus five minutes; the call returns the token string of the
(possibly refreshed) cached token, and the Bool records whether an
acquisition was performed. -/
def access_token_provider : Option AccessToken → Int → AccessToken → String × Bool
  | none, _, fresh => (fresh.token, true)
  | some t, now, fresh =>
    if t.expires_on < now + 5 * 60 then (fresh.token, true) else (t.token, false)

/-- In the source, session_id is declared as a class attribute with
default str(uuid4()): the uuid4() call runs once, when the class object
is created, so every instance constructed without an explicit session_id
carries this same string. That single evaluation is embedded as one fixed
string (the concrete digits are arbitrary). -/
def classLevelDefaultSessionId : String := "7c9e6679-7425-40de-944b-e07fc1f90ae7"

/-- The SessionsPythonREPLTool fields the claims are about (the callable
access_token_provider field and the langchain BaseTool plumbing are not
modelled). Defaults mirror the class-attribute defaults of the source. -/
structure SessionsPythonREPLTool where
  pool_management_endpoint : String
  name : String := "Python_REPL"
  sanitize_input : Bool := true
  session_id : String := classLevelDefaultSessionId
deriving DecidableEq, Repr

/-- Construction as app.py performs it:
SessionsPythonREPLTool(pool_management_endpoint=...) with every other
field left to its default. -/
def mkSessionsPythonREPLTool (pool_management_endpoint : String) : SessionsPythonREPLTool :=
  { pool_management_endpoint := pool_management_endpoint }

/-- What a call to `_run` can end in. The source returns a bare string in
the no-class-name case and the pair ("Error creating file", empty dict)
when createfile returned a falsy value. -/
inductive RunResult where
  | noClassMessage (msg : String)
  | createError (msg : String)
  | raised (err : String)
  | ok (result : Option String) (response : ExecResponse)
deriving DecidableEq, Repr

/-- _run, with the remote behaviour passed in: createfileBehavior maps
(python_code, scene_name) to what createfile ends in, executeBehavior
maps scene_name to what execute ends in. Scene-name extraction first;
then createfile, whose result is tested for truthiness (True is truthy,
None is falsy); then execute; finally the result string is the response's
"output" field when its "status" field equals "success" and its
"message" field otherwise. -/
def run_tool (python_code : String)
    (createfileBehavior : String → String → Except String (Option Bool))
    (executeBehavior : String → Except String ExecResponse) : RunResult :=
  match find_class_name python_code with
  | none => RunResult.noClassMessage "No class name found in the code"
  | some scene_name =>
    match createfileBehavior python_code scene_name with
    | Except.error e => RunResult.raised e
    | Except.ok created =>
      if created = some true then
        match executeBehavior scene_name with
        | Except.error e => RunResult.raised e
        | Except.ok response =>
          RunResult.ok
            (if response.status = some "success" then response.output else response.message)
            response
      else RunResult.createError "Error creating file"

/-- app.py's on_message after the model call: extract the code blocks,
then index element 0 of the list. Indexing an empty list raises an
IndexError; there is no guard in the source. -/
def on_message_pipeline (res : String) : Except String CodeBlock :=
  match extract_markdown_code_blocks res with
  | [] => Except.error "IndexError: list index out of range"
  | b :: _ => Except.ok b

/-- Modelled from the spec: one fenced code block as the spec describes
it, an opening triple backtick optionally carrying a language tag, a
newline, the verbatim code, and a closing triple backtick. This is the
spec-side notion used to say what a text "containing N fenced code
blocks" is; it is compared against the source-side scanner. -/
def renderBlockL (code lang : List Char) : List Char :=
  '`' :: '`' :: '`' :: (lang ++ '\n' :: (code ++ ['`', '`', '`']))

/-- Modelled from the spec: a text containing exactly the given fenced
code blocks, in order, interleaved with the given segments (one more
segment than blocks). -/
def renderDocL : List (List Char) → List (List Char × List Char) → List Char
  | [s], [] => s
  | s :: ss, b :: bs => s ++ renderBlockL b.1 b.2 ++ renderDocL ss bs
  | _, _ => []

/-- Whether the optional tag group of the code-block pattern would fire
inside an untagged block's body: after leading whitespace the body starts
with a nonempty tag token followed by a newline. -/
def tagCaptured (code : List Char) : Bool :=
  let u := code.dropWhile isPySpace
  (!(u.takeWhile isTagChar).isEmpty) && ((u.dropWhile isTagChar).head? == some '\n')

/-- Well-formedness of a (code, language) pair for the round-trip
statement: the code is backtick-free, and the language is either a
nonempty tag token or empty with the untagged body not starting, after
whitespace, with a tag token followed by a newline. -/
def wfBlockL (b : List Char × List Char) : Prop :=
  ('`' : Char) ∉ b.1 ∧
    ((b.2 ≠ [] ∧ ∀ c ∈ b.2, isTagChar c = true) ∨
     (b.2 = [] ∧ tagCaptured b.1 = false))

instance (b : List Char × List Char) : Decidable (wfBlockL b) := by
  unfold wfBlockL; infer_instance

/-- Helper: takeWhile stops no later than an element the predicate
rejects, so such an element and everything after it can be cut off. -/
theorem takeWhile_append_stop {p : Char → Bool} {c : Char} (a d : List Char)
    (h : p c = false) : (a ++ c :: d).takeWhile p = a.takeWhile p := by
  induction a with
  | nil => simp [List.takeWhile_cons, h]
  | cons x xs ih => by_cases hx : p x <;> simp [List.takeWhile_cons, hx, ih]

/-- Helper: dropWhile stops no later than an element the predicate
rejects. -/
theorem dropWhile_append_stop {p : Char → Bool} {c : Char} (a d : List Char)
    (h : p c = false) : (a ++ c :: d).dropWhile p = a.dropWhile p ++ c :: d := by
  induction a with
  | nil => simp [List.dropWhile_cons, h]
  | cons x xs ih => by_cases hx : p x <;> simp [List.dropWhile_cons, hx, ih]

/-- Helper: takeWhile passes over a prefix every element of which the
predicate accepts. -/
theorem takeWhile_append_all {p : Char → Bool} (a r : List Char)
    (h : ∀ x ∈ a, p x = true) : (a ++ r).takeWhile p = a ++ r.takeWhile p := by
  induction a with
  | nil => simp
  | cons x xs ih =>
    have hx : p x = true := h x (by simp)
    simp [List.takeWhile_cons, hx, ih fun y hy => h y (by simp [hy])]

/-- Helper: dropWhile passes over a prefix every element of which the
predicate accepts. -/
theorem dropWhile_append_all {p : Char → Bool} (a r : List Char)
    (h : ∀ x ∈ a, p x = true) : (a ++ r).dropWhile p = r.dropWhile p := by
  induction a with
  | nil => simp
  | cons x xs ih =>
    have hx : p x = true := h x (by simp)
    simp [List.dropWhile_cons, hx, ih fun y hy => h y (by simp [hy])]

/-- Helper: a whitespace character is not a tag character. -/
theorem space_not_tagChar {c : Char} (h : isPySpace c = true) : isTagChar c = false := by
  have hc : ((((c = ' ' ∨ c = '\t') ∨ c = '\n') ∨ c = '\r') ∨ c = '\x0b') ∨ c = '\x0c' := by
    simpa [isPySpace] using h
  rcases hc with ((((rfl | rfl) | rfl) | rfl) | rfl) | rfl <;> rfl

/-- Helper: a whitespace character is not a word character. -/
theorem space_not_wordChar {c : Char} (h : isPySpace c = true) : isWordChar c = false := by
  have ht := space_not_tagChar h
  unfold isTagChar at ht
  exact (Bool.or_eq_false_iff.mp (Bool.or_eq_false_iff.mp ht).1).1

/-- Helper: a tag character is not whitespace. -/
theorem tagChar_not_space {c : Char} (h : isTagChar c = true) : isPySpace c = false := by
  cases hps : isPySpace c with
  | false => rfl
  | true => rw [space_not_tagChar hps] at h; cases h

/-- Helper: a word character is not whitespace. -/
theorem wordChar_not_space {c : Char} (h : isWordChar c = true) : isPySpace c = false := by
  cases hps : isPySpace c with
  | false => rfl
  | true => rw [space_not_wordChar hps] at h; cases h

/-- Helper: find_class_name on a string built from a character list is
searchClass on that list. -/
theorem find_class_name_mk (L : List Char) :
    find_class_name (String.mk L) = (searchClass L).map String.mk := rfl

/-- Helper: the scene-name pattern matched right at its literal: the
whitespace run is consumed greedily, then the maximal word run is
captured. -/
theorem matchClassAt_exact (ws ident rest : List Char)
    (hws : ws ≠ []) (hwsp : ∀ c ∈ ws, isPySpace c = true)
    (hid : ident ≠ []) (hidw : ∀ c ∈ ident, isWordChar c = true)
    (hrest : rest.takeWhile isWordChar = []) :
    matchClassAt (classChars ++ (ws ++ (ident ++ rest))) = some ident := by
  obtain ⟨i, is, rfl⟩ : ∃ i is, ident = i :: is := by
    cases ident with
    | nil => exact absurd rfl hid
    | cons i is => exact ⟨i, is, rfl⟩
  have hisp : isPySpace i = false := wordChar_not_space (hidw i (by simp))
  have htake : (classChars ++ (ws ++ i :: (is ++ rest))).take 5 = classChars := by
    rw [show (5 : Nat) = classChars.length from rfl]
    exact List.take_left ..
  have hdrop : (classChars ++ (ws ++ i :: (is ++ rest))).drop 5 = ws ++ i :: (is ++ rest) := by
    rw [show (5 : Nat) = classChars.length from rfl]
    exact List.drop_left ..
  have hws' : (ws ++ i :: (is ++ rest)).takeWhile isPySpace = ws := by
    rw [show ws ++ i :: (is ++ rest) = ws ++ ((i :: is) ++ rest) from by simp,
        takeWhile_append_all _ _ hwsp]
    simp [List.takeWhile_cons, hisp]
  have hdw : (ws ++ i :: (is ++ rest)).dropWhile isPySpace = i :: (is ++ rest) := by
    rw [show ws ++ i :: (is ++ rest) = ws ++ ((i :: is) ++ rest) from by simp,
        dropWhile_append_all _ _ hwsp]
    simp [List.dropWhile_cons, hisp]
  have hident : (i :: (is ++ rest)).takeWhile isWordChar = i :: is := by
    have : ((i :: is) ++ rest).takeWhile isWordChar
        = (i :: is) ++ rest.takeWhile isWordChar := takeWhile_append_all (i :: is) rest hidw
    simpa [hrest] using this
  show matchClassAt (classChars ++ (ws ++ i :: (is ++ rest))) = some (i :: is)
  unfold matchClassAt
  rw [if_pos (by simp [startsWithClass, htake])]
  simp only [hdrop, hws', hdw, hident]
  rw [if_pos ⟨hws, by simp⟩]

/-- Helper: re.search skips a prefix region at no position of which the
whole pattern matches: searching the concatenation equals searching the
remainder. -/
theorem searchClass_skip : ∀ (pre T : List Char),
    (∀ i, i < pre.length → matchClassAt ((pre ++ T).drop i) = none) →
    searchClass (pre ++ T) = searchClass T := by
  intro pre
  induction pre with
  | nil => intro T _; rfl
  | cons p pre' ih =>
    intro T H
    have h0 : matchClassAt (p :: (pre' ++ T)) = none := by
      have := H 0 (by simp)
      simpa using this
    show searchClass (p :: (pre' ++ T)) = searchClass T
    simp only [searchClass, h0]
    exact ih T fun i hi => by
      have := H (i + 1) (by simp; omega)
      simpa using this

/-- C8: scene-name extraction returns the identifier captured at the
first occurrence of the pattern, with re.search semantics: for any text
laid out as a prefix at no position of which the whole pattern matches
(earlier "class" literals that fail the whitespace-identifier tail are
skipped), the literal "class", nonempty whitespace, a nonempty maximal
word-run identifier and a remainder, the identifier at that first
pattern occurrence is returned; and when the pattern matches at no
position at all, absence is signalled. -/
theorem searchClass_spec :
    (∀ pre ws ident rest : List Char,
      (∀ i, i < pre.length →
        matchClassAt ((pre ++ (classChars ++ (ws ++ (ident ++ rest)))).drop i) = none) →
      ws ≠ [] → (∀ c ∈ ws, isPySpace c = true) →
      ident ≠ [] → (∀ c ∈ ident, isWordChar c = true) →
      rest.takeWhile isWordChar = [] →
      find_class_name (String.mk (pre ++ (classChars ++ (ws ++ (ident ++ rest)))))
        = some (String.mk ident))
    ∧ (∀ code : List Char,
        (∀ i, i < code.length → matchClassAt (code.drop i) = none) →
        find_class_name (String.mk code) = none) := by
  constructor
  · intro pre ws ident rest H hws hwsp hid hidw hrest
    rw [find_class_name_mk]
    have hskip : searchClass (pre ++ (classChars ++ (ws ++ (ident ++ rest))))
        = searchClass (classChars ++ (ws ++ (ident ++ rest))) :=
      searchClass_skip pre _ H
    have hm := matchClassAt_exact ws ident rest hws hwsp hid hidw hrest
    have hsc : searchClass (classChars ++ (ws ++ (ident ++ rest))) = some ident := by
      cases hX : classChars ++ (ws ++ (ident ++ rest)) with
      | nil => simp [classChars] at hX
      | cons c cs =>
        rw [hX] at hm
        simp [searchClass, hm]
    rw [hskip, hsc]
    rfl
  · intro code H
    rw [find_class_name_mk]
    have hnone : searchClass code = none := by
      have := searchClass_skip code [] (by simpa using H)
      simpa using this
    rw [hnone]
    rfl

/-- Witness for C8: a concrete source whose prefix even contains the
letters "class" inside the word "classic" (a position re.search skips
because the pattern's whitespace-identifier tail fails there) yields the
identifier of the first full pattern occurrence, and a source with no
pattern occurrence yields absence. -/
theorem searchClass_spec_witness :
    find_class_name (String.mk ("# classic intro\n".data ++ (classChars ++ (" ".data ++
        ("Foo".data ++ ":\n  pass".data))))) = some (String.mk "Foo".data)
    ∧ find_class_name (String.mk "no declarations here".data) = none := by
  exact ⟨searchClass_spec.1 "# classic intro\n".data " ".data "Foo".data ":\n  pass".data
           (by decide) (by decide) (by decide) (by decide) (by decide) (by decide),
         searchClass_spec.2 "no declarations here".data (by decide)⟩

/-- Helper: takeWhile of a list every element of which the predicate
accepts is the list itself. -/
theorem takeWhile_all_eq {p : Char → Bool} (a : List Char)
    (h : ∀ x ∈ a, p x = true) : a.takeWhile p = a := by
  have := takeWhile_append_all a [] h
  simpa using this

/-- Helper: dropWhile of a list every element of which the predicate
accepts is empty. -/
theorem dropWhile_all_eq {p : Char → Bool} (a : List Char)
    (h : ∀ x ∈ a, p x = true) : a.dropWhile p = [] := by
  have := dropWhile_append_all a [] h
  simpa using this

/-- Helper: a successful splitFence is a decomposition at a fence. -/
theorem splitFence_sound {cs p r : List Char} (h : splitFence cs = some (p, r)) :
    cs = p ++ '`' :: '`' :: '`' :: r := by
  induction cs generalizing p r with
  | nil => cases h
  | cons c rest ih =>
    simp only [splitFence] at h
    split_ifs at h with hcc
    · obtain ⟨rfl, hc2⟩ := hcc
      simp only [Option.some.injEq, Prod.mk.injEq] at h
      obtain ⟨rfl, rfl⟩ := h
      have hre : rest = '`' :: '`' :: rest.drop 2 := by
        conv_lhs => rw [← List.take_append_drop 2 rest]
        rw [hc2]
        rfl
      conv_lhs => rw [hre]
      rfl
    · cases hs : splitFence rest with
      | none => rw [hs] at h; cases h
      | some pr =>
        obtain ⟨p', r'⟩ := pr
        rw [hs] at h
        simp only [Option.some.injEq, Prod.mk.injEq] at h
        obtain ⟨rfl, rfl⟩ := h
        simp [ih hs]

/-- Helper: splitFence commutes with prepending a backtick-free prefix. -/
theorem splitFence_append {s : List Char} (cs : List Char) (h : ('`' : Char) ∉ s) :
    splitFence (s ++ cs) = (splitFence cs).map fun pr => (s ++ pr.1, pr.2) := by
  induction s with
  | nil => cases hs : splitFence cs <;> simp [hs]
  | cons x xs ih =>
    have hx : x ≠ '`' := fun hx => h (by simp [hx])
    have hxs : ('`' : Char) ∉ xs := fun hm => h (by simp [hm])
    simp only [List.cons_append, splitFence]
    rw [if_neg (fun hcc => hx hcc.1)]
    simp only [List.append_eq]
    rw [ih hxs]
    cases hs : splitFence cs <;> simp

/-- Helper: splitFence fires immediately at a fence. -/
theorem splitFence_fence (r : List Char) :
    splitFence ('`' :: '`' :: '`' :: r) = some ([], r) := rfl

/-- Helper: a backtick-free list has no fence. -/
theorem splitFence_of_no_backtick {s : List Char} (h : ('`' : Char) ∉ s) :
    splitFence s = none := by
  have : splitFence (s ++ []) = (splitFence []).map fun pr => (s ++ pr.1, pr.2) :=
    splitFence_append [] h
  simpa using this

/-- Helper: splitFence of a backtick-free body followed by a fence splits
exactly at that fence. -/
theorem splitFence_code_fence {code : List Char} (r : List Char)
    (h : ('`' : Char) ∉ code) :
    splitFence (code ++ '`' :: '`' :: '`' :: r) = some (code, r) := by
  rw [splitFence_append _ h, splitFence_fence]
  simp

/-- Helper: the remainder of a successful splitFence is shorter by at
least the fence. -/
theorem splitFence_length {cs p r : List Char} (h : splitFence cs = some (p, r)) :
    r.length + 3 ≤ cs.length := by
  have hd := splitFence_sound h
  subst hd
  simp [List.length_append]

/-- Helper: a successful open-fence match strictly shrinks the input. -/
theorem tryOpenTag_length {cs tag rest : List Char}
    (h : tryOpenTag cs = some (tag, rest)) : rest.length < cs.length := by
  have hx : ((cs.dropWhile isPySpace).dropWhile isTagChar).length ≤ cs.length :=
    le_trans ((List.dropWhile_suffix _).length_le) ((List.dropWhile_suffix _).length_le)
  simp only [tryOpenTag] at h
  split_ifs at h with h1 h2
  · simp only [Option.some.injEq, Prod.mk.injEq] at h
    obtain ⟨rfl, rfl⟩ := h
    obtain ⟨ht, hh⟩ := h1
    have hne : (cs.dropWhile isPySpace).dropWhile isTagChar ≠ [] := by
      intro hnil; rw [hnil] at hh; cases hh
    have hpos : 1 ≤ ((cs.dropWhile isPySpace).dropWhile isTagChar).length := by
      cases hc : (cs.dropWhile isPySpace).dropWhile isTagChar with
      | nil => exact absurd hc hne
      | cons _ _ => simp [hc]
    rw [List.length_tail]
    omega
  · simp only [Option.some.injEq, Prod.mk.injEq] at h
    obtain ⟨rfl, rfl⟩ := h
    have hne : cs ≠ [] := by
      intro hnil; rw [hnil] at h2; cases h2
    have hpos : 1 ≤ cs.length := by
      cases hc : cs with
      | nil => exact absurd hc hne
      | cons _ _ => simp [hc]
    rw [List.length_tail]
    omega

/-- Helper: a successful pattern match strictly shrinks the input. -/
theorem matchAfterFence_length {cs : List Char} {blk : CodeBlock} {rest : List Char}
    (h : matchAfterFence cs = some (blk, rest)) : rest.length < cs.length := by
  unfold matchAfterFence at h
  cases ho : tryOpenTag cs with
  | none => rw [ho, Option.none_bind] at h; cases h
  | some pr0 =>
    obtain ⟨tag, afterOpen⟩ := pr0
    rw [ho, Option.some_bind] at h
    cases hs : splitFence afterOpen with
    | none => rw [hs] at h; cases h
    | some pr =>
      obtain ⟨code, r⟩ := pr
      rw [hs, Option.map_some'] at h
      simp only [Option.some.injEq, Prod.mk.injEq] at h
      obtain ⟨-, rfl⟩ := h
      have hl1 := splitFence_length hs
      have hl2 := tryOpenTag_length ho
      omega

/-- Helper: the fuelled scan does not depend on the fuel once the fuel
exceeds the input length. -/
theorem scanBlocksAux_congr : ∀ (f1 f2 : Nat) (cs : List Char),
    cs.length < f1 → cs.length < f2 → scanBlocksAux f1 cs = scanBlocksAux f2 cs := by
  intro f1
  induction f1 with
  | zero => intro f2 cs h1 h2; omega
  | succ fa ih =>
    intro f2 cs h1 h2
    cases f2 with
    | zero => omega
    | succ fb =>
      simp only [scanBlocksAux]
      cases hs : splitFence cs with
      | none => rfl
      | some pr =>
        obtain ⟨pre, rest⟩ := pr
        have hr3 := splitFence_length hs
        show scanStep (scanBlocksAux fa) rest = scanStep (scanBlocksAux fb) rest
        unfold scanStep
        cases hm : matchAfterFence rest with
        | none =>
          have hlen2 : ('`' :: '`' :: rest).length = rest.length + 2 := by simp
          show scanBlocksAux fa ('`' :: '`' :: rest)
            = scanBlocksAux fb ('`' :: '`' :: rest)
          exact ih fb ('`' :: '`' :: rest) (by omega) (by omega)
        | some br =>
          obtain ⟨blk, rest2⟩ := br
          have hm2 := matchAfterFence_length hm
          show blk :: scanBlocksAux fa rest2 = blk :: scanBlocksAux fb rest2
          rw [ih fb rest2 (by omega) (by omega)]

/-- Helper: the scan of a fence-free text is empty. -/
theorem scanBlocks_eq_nil {cs : List Char} (h : splitFence cs = none) :
    scanBlocks cs = [] := by
  unfold scanBlocks
  simp only [scanBlocksAux]
  rw [h]

/-- Helper: one step of the scan: a fence whose pattern matches produces
its block and the scan continues after the match. -/
theorem scanBlocks_eq_cons {cs pre rest : List Char} {blk : CodeBlock}
    {rest2 : List Char} (h1 : splitFence cs = some (pre, rest))
    (h2 : matchAfterFence rest = some (blk, rest2)) :
    scanBlocks cs = blk :: scanBlocks rest2 := by
  have ha := splitFence_length h1
  have hb := matchAfterFence_length h2
  unfold scanBlocks
  simp only [scanBlocksAux]
  rw [h1]
  show scanStep (scanBlocksAux cs.length) rest = blk :: scanBlocksAux (rest2.length + 1) rest2
  unfold scanStep
  rw [h2]
  show blk :: scanBlocksAux cs.length rest2 = blk :: scanBlocksAux (rest2.length + 1) rest2
  rw [scanBlocksAux_congr cs.length (rest2.length + 1) rest2 (by omega) (by omega)]

/-- Helper: the pattern matched after a fence carrying a nonempty tag:
the tag is captured, the backtick-free body is the lazy group, and the
scan resumes after the closing fence. -/
theorem matchAfterFence_tagged {lang code rest : List Char} (hl : lang ≠ [])
    (hlw : ∀ c ∈ lang, isTagChar c = true) (hc : ('`' : Char) ∉ code) :
    matchAfterFence (lang ++ '\n' :: (code ++ '`' :: '`' :: '`' :: rest))
      = some (⟨String.mk code, String.mk lang⟩, rest) := by
  obtain ⟨a, lang', rfl⟩ : ∃ a l', lang = a :: l' := by
    cases lang with
    | nil => exact absurd rfl hl
    | cons a l' => exact ⟨a, l', rfl⟩
  have ha : isTagChar a = true := hlw a (by simp)
  have hasp : isPySpace a = false := tagChar_not_space ha
  have hdw : ((a :: lang') ++ '\n' :: (code ++ '`' :: '`' :: '`' :: rest)).dropWhile isPySpace
      = (a :: lang') ++ '\n' :: (code ++ '`' :: '`' :: '`' :: rest) := by
    simp [List.cons_append, List.dropWhile_cons, hasp]
  have htw : ((a :: lang') ++ '\n' :: (code ++ '`' :: '`' :: '`' :: rest)).takeWhile isTagChar
      = a :: lang' := by
    rw [takeWhile_append_stop _ _ (by rfl : isTagChar '\n' = false)]
    exact takeWhile_all_eq _ hlw
  have hdwt : ((a :: lang') ++ '\n' :: (code ++ '`' :: '`' :: '`' :: rest)).dropWhile isTagChar
      = '\n' :: (code ++ '`' :: '`' :: '`' :: rest) := by
    rw [dropWhile_append_stop _ _ (by rfl : isTagChar '\n' = false)]
    rw [dropWhile_all_eq _ hlw]
    simp
  simp only [matchAfterFence, tryOpenTag, hdw, htw, hdwt]
  rw [if_pos ⟨by simp, rfl⟩]
  simp only [List.tail_cons, Option.some_bind]
  rw [splitFence_code_fence _ hc, Option.map_some']

/-- Helper: the pattern matched after an untagged fence: when the body
does not itself look like a tag line (tagCaptured is false), the optional
group does not fire, the newline closes the open fence, and the body is
the lazy group. -/
theorem matchAfterFence_untagged {code rest : List Char} (hc : ('`' : Char) ∉ code)
    (hsafe : tagCaptured code = false) :
    matchAfterFence ('\n' :: (code ++ '`' :: '`' :: '`' :: rest))
      = some (⟨String.mk code, String.mk []⟩, rest) := by
  have h1 : ('\n' :: (code ++ '`' :: '`' :: '`' :: rest)).dropWhile isPySpace
      = (code ++ '`' :: '`' :: '`' :: rest).dropWhile isPySpace := by
    simp [List.dropWhile_cons, show isPySpace '\n' = true from rfl]
  have h2 : (code ++ '`' :: '`' :: '`' :: rest).dropWhile isPySpace
      = code.dropWhile isPySpace ++ '`' :: '`' :: '`' :: rest :=
    dropWhile_append_stop _ _ (by rfl : isPySpace '`' = false)
  have h3 : (code.dropWhile isPySpace ++ '`' :: '`' :: '`' :: rest).takeWhile isTagChar
      = (code.dropWhile isPySpace).takeWhile isTagChar :=
    takeWhile_append_stop _ _ (by rfl : isTagChar '`' = false)
  have h4 : (code.dropWhile isPySpace ++ '`' :: '`' :: '`' :: rest).dropWhile isTagChar
      = (code.dropWhile isPySpace).dropWhile isTagChar ++ '`' :: '`' :: '`' :: rest :=
    dropWhile_append_stop _ _ (by rfl : isTagChar '`' = false)
  simp only [tagCaptured, Bool.and_eq_false_iff] at hsafe
  have hcond : ¬((('\n' :: (code ++ '`' :: '`' :: '`' :: rest)).dropWhile
        isPySpace).takeWhile isTagChar ≠ []
      ∧ ((('\n' :: (code ++ '`' :: '`' :: '`' :: rest)).dropWhile
        isPySpace).dropWhile isTagChar).head? = some '\n') := by
    rw [h1, h2, h3, h4]
    rintro ⟨hne, hhead⟩
    rcases hsafe with hempty | hv
    · rw [Bool.not_eq_false', List.isEmpty_iff] at hempty
      exact hne hempty
    · cases hd : (code.dropWhile isPySpace).dropWhile isTagChar with
      | nil =>
        rw [hd] at hhead
        simp only [List.nil_append, List.head?_cons, Option.some.injEq] at hhead
        cases hhead
      | cons v vs =>
        rw [hd] at hhead
        simp only [List.cons_append, List.head?_cons, Option.some.injEq] at hhead
        rw [hd] at hv
        simp only [List.head?_cons, beq_eq_false_iff_ne, ne_eq, Option.some.injEq] at hv
        exact hv hhead
  have hhd : ('\n' :: (code ++ '`' :: '`' :: '`' :: rest)).head? = some '\n' := rfl
  simp only [matchAfterFence, tryOpenTag]
  rw [if_neg hcond, if_pos hhd]
  simp only [List.tail_cons, Option.some_bind]
  rw [splitFence_code_fence _ hc, Option.map_some']

/-- Helper: the scan of a rendered document recovers exactly its blocks,
in order, by induction over the blocks. -/
theorem scanBlocks_renderDoc : ∀ (blocks : List (List Char × List Char))
    (segs : List (List Char)), segs.length = blocks.length + 1 →
    (∀ s ∈ segs, ('`' : Char) ∉ s) → (∀ b ∈ blocks, wfBlockL b) →
    scanBlocks (renderDocL segs blocks)
      = blocks.map (fun b => ⟨String.mk b.1, String.mk b.2⟩) := by
  intro blocks
  induction blocks with
  | nil =>
    intro segs hlen hsegs hblocks
    obtain ⟨s, rfl⟩ : ∃ s, segs = [s] := by
      cases segs with
      | nil => simp at hlen
      | cons s ss =>
        cases ss with
        | nil => exact ⟨s, rfl⟩
        | cons _ _ => simp at hlen
    have hs : ('`' : Char) ∉ s := hsegs s (by simp)
    rw [show renderDocL [s] [] = s from rfl]
    exact scanBlocks_eq_nil (splitFence_of_no_backtick hs)
  | cons b bs ih =>
    intro segs hlen hsegs hblocks
    obtain ⟨s, ss, rfl⟩ : ∃ s ss, segs = s :: ss := by
      cases segs with
      | nil => simp at hlen
      | cons s ss => exact ⟨s, ss, rfl⟩
    obtain ⟨code, lang⟩ := b
    obtain ⟨hcode, hlang⟩ := hblocks (code, lang) (by simp)
    have hs : ('`' : Char) ∉ s := hsegs s (by simp)
    have hr : renderDocL (s :: ss) ((code, lang) :: bs)
        = s ++ ('`' :: '`' :: '`' ::
            (lang ++ '\n' :: (code ++ '`' :: '`' :: '`' :: renderDocL ss bs))) := by
      simp [renderDocL, renderBlockL, List.append_assoc]
    rw [hr]
    have h1 : splitFence (s ++ ('`' :: '`' :: '`' ::
        (lang ++ '\n' :: (code ++ '`' :: '`' :: '`' :: renderDocL ss bs))))
        = some (s, lang ++ '\n' :: (code ++ '`' :: '`' :: '`' :: renderDocL ss bs)) := by
      rw [splitFence_append _ hs, splitFence_fence]
      simp
    have h2 : matchAfterFence (lang ++ '\n' ::
        (code ++ '`' :: '`' :: '`' :: renderDocL ss bs))
        = some (⟨String.mk code, String.mk lang⟩, renderDocL ss bs) := by
      rcases hlang with ⟨hne, hall⟩ | ⟨hlnil, hsafe⟩
      · exact matchAfterFence_tagged hne hall hcode
      · subst hlnil
        have hu : matchAfterFence ('\n' :: (code ++ '`' :: '`' :: '`' :: renderDocL ss bs))
            = some (⟨String.mk code, String.mk []⟩, renderDocL ss bs) :=
          matchAfterFence_untagged hcode hsafe
        simpa using hu
    rw [scanBlocks_eq_cons h1 h2]
    rw [ih ss (by simp at hlen; omega) (fun s2 hs2 => hsegs s2 (by simp [hs2]))
        (fun b2 hb2 => hblocks b2 (by simp [hb2]))]
    rfl

/-- C7 counterexample: the text consisting of exactly one fenced code
block with no language tag whose verbatim body is the word foo on its own
line. Extraction does not return that block with its verbatim code and
empty language: the optional whitespace-then-tag group of the pattern
swallows the newline after the opening fence and captures foo as the
language tag, leaving an empty code. -/
theorem extract_untagged_word_block_cex :
    String.mk (renderDocL [[], []] [("foo\n".data, [])]) = "```\nfoo\n```"
    ∧ extract_markdown_code_blocks "```\nfoo\n```" ≠ [⟨"foo\n", ""⟩]
    ∧ extract_markdown_code_blocks "```\nfoo\n```" = [⟨"", "foo"⟩] := by
  exact ⟨by decide, by decide, by decide⟩

/-- C7 (amended): for every text obtained by interleaving backtick-free
segments around N fenced code blocks whose bodies are backtick-free and
whose language tags are nonempty tag tokens or absent — with the proviso
that an untagged body must not open, after whitespace, with a lone tag
token followed by a newline, which the pattern would capture as a
language tag — extractCodeBlocks returns exactly N CodeBlocks in
document order, each block's code the verbatim body and each block's
language the leading tag token, or empty when unspecified. -/
theorem extract_blocks_render_roundtrip (blocks : List (List Char × List Char))
    (segs : List (List Char)) (hlen : segs.length = blocks.length + 1)
    (hsegs : ∀ s ∈ segs, ('`' : Char) ∉ s) (hblocks : ∀ b ∈ blocks, wfBlockL b) :
    extract_markdown_code_blocks (String.mk (renderDocL segs blocks))
      = blocks.map (fun b => ⟨String.mk b.1, String.mk b.2⟩) :=
  scanBlocks_renderDoc blocks segs hlen hsegs hblocks

/-- Witness for C7's amended statement: a document with a tagged python
block and an untagged block between three prose segments extracts to
exactly those two blocks in order. -/
theorem extract_blocks_render_roundtrip_witness :
    extract_markdown_code_blocks (String.mk (renderDocL
        ["Intro: ".data, "\nmore ".data, " end".data]
        [("print(1)\n".data, "python".data), (" x = 2\n".data, [])]))
      = [⟨"print(1)\n", "python"⟩, ⟨" x = 2\n", ""⟩] := by
  exact extract_blocks_render_roundtrip
    [("print(1)\n".data, "python".data), (" x = 2\n".data, [])]
    ["Intro: ".data, "\nmore ".data, " end".data]
    (by decide) (by decide) (by decide)

/-- C1: the code contradicts the spec at the failing input. A 404 response
followed by a 200 response carrying the file bytes still ends in the
original 404 error after the two attempts, because the source's `raise e`
after the retry is unconditional; two consecutive 404s raise after exactly
two attempts; a non-404 failure raises after one attempt; the claim's
404-then-200 case never returns the second response's bytes. -/
theorem download_file_retry_divergence :
    download_file_result ⟨404, "not found"⟩ ⟨200, "VIDEO-BYTES"⟩ = (Except.error "not found", 2)
    ∧ download_file_result ⟨404, "nf1"⟩ ⟨404, "nf2"⟩ = (Except.error "nf2", 2)
    ∧ download_file_result ⟨403, "denied"⟩ ⟨200, "VIDEO-BYTES"⟩ = (Except.error "denied", 1)
    ∧ download_file_result ⟨200, "VIDEO-BYTES"⟩ ⟨200, "unused"⟩ = (Except.ok "VIDEO-BYTES", 1) := by
  exact ⟨rfl, rfl, rfl, rfl⟩

/-- C2: two client instances constructed the way app.py constructs them
(only the endpoint supplied) are distinct instances yet carry the same
session identifier, because the default str(uuid4()) is evaluated once at
class-definition time. -/
theorem session_id_shared_across_instances :
    (mkSessionsPythonREPLTool "https://pool-a.example/").session_id
      = (mkSessionsPythonREPLTool "https://pool-b.example/").session_id
    ∧ mkSessionsPythonREPLTool "https://pool-a.example/"
      ≠ mkSessionsPythonREPLTool "https://pool-b.example/" := by
  exact ⟨rfl, by decide⟩

/-- C3: execute makes a second request exactly when the first response's
status is 500; a 500 then a non-raising response yields the second
response's parsed JSON after two attempts; a raising non-500 status is
raised immediately after one attempt; a non-raising first response is
returned at once. -/
theorem execute_retry_policy (r1 r2 : JsonHttpResponse) :
    ((execute_result r1 r2).2 = 2 ↔ r1.status_code = 500)
    ∧ (r1.status_code = 500 → raisesForStatus r2.status_code = false →
        execute_result r1 r2 = (Except.ok r2.body, 2))
    ∧ (raisesForStatus r1.status_code = true → r1.status_code ≠ 500 →
        execute_result r1 r2 = (Except.error r1.text, 1))
    ∧ (raisesForStatus r1.status_code = false →
        execute_result r1 r2 = (Except.ok r1.body, 1)) := by
  unfold execute_result
  split_ifs with hr h5 hr2 <;> (simp_all [raisesForStatus]; try omega)

/-- Witness for C3 at concrete responses: a 500-then-200 run returns the
second response's parsed result after two attempts, and a 404 failure is
raised immediately after one attempt. -/
theorem execute_retry_policy_witness :
    execute_result ⟨500, ⟨none, none, none⟩, "server boom"⟩
        ⟨200, ⟨some "success", some "ok", none⟩, ""⟩
      = (Except.ok ⟨some "success", some "ok", none⟩, 2)
    ∧ execute_result ⟨404, ⟨none, none, none⟩, "missing"⟩
        ⟨200, ⟨some "success", some "ok", none⟩, ""⟩
      = (Except.error "missing", 1) := by
  exact ⟨(execute_retry_policy _ _).2.1 rfl (by decide),
         (execute_retry_policy _ _).2.2.1 (by decide) (by decide)⟩

/-- C4 counterexample: a 204 response makes createfile return Python's
implicit None — neither True nor a raised error — so it is false that
every non-200 status raises, and false that only true is ever returned. -/
theorem createfile_204_neither_true_nor_raises :
    createfile_result ⟨204, "created"⟩ = Except.ok none := by rfl

/-- C4 (amended): createfile returns True exactly on status 200; it
raises an error carrying the response body exactly for statuses 400-599;
for any other status it returns None. -/
theorem createfile_status_characterization (r : HttpResponse) :
    (createfile_result r = Except.ok (some true) ↔ r.status_code = 200)
    ∧ (createfile_result r = Except.error r.text ↔
        400 ≤ r.status_code ∧ r.status_code < 600)
    ∧ (r.status_code ≠ 200 → ¬(400 ≤ r.status_code ∧ r.status_code < 600) →
        createfile_result r = Except.ok none) := by
  unfold createfile_result
  split_ifs with h1 h2 <;> (simp_all [raisesForStatus]; try omega)

/-- Witness for C4's amended statement at concrete responses. -/
theorem createfile_status_characterization_witness :
    createfile_result ⟨200, "ok-body"⟩ = Except.ok (some true)
    ∧ createfile_result ⟨500, "stack trace"⟩ = Except.error "stack trace"
    ∧ createfile_result ⟨204, "created"⟩ = Except.ok none := by
  exact ⟨(createfile_status_characterization _).1.mpr rfl,
         (createfile_status_characterization _).2.1.mpr (by decide),
         (createfile_status_characterization _).2.2 (by decide) (by decide)⟩

/-- C5 counterexample: a model output with no fenced code block (it is a
rendering of zero blocks) makes on_message raise an IndexError at
codeblock[0] instead of reporting a descriptive result. -/
theorem on_message_no_block_raises :
    String.mk (renderDocL ["hello there".data] []) = "hello there"
    ∧ extract_markdown_code_blocks "hello there" = []
    ∧ on_message_pipeline "hello there"
      = Except.error "IndexError: list index out of range" := by
  refine ⟨rfl, by decide, by rfl⟩

/-- C5 (amended): the no-class-name case is reported as a descriptive
result string by _run, but the no-code-block case raises an IndexError in
on_message rather than being reported to the caller. -/
theorem parse_failure_reporting (pc res : String)
    (cf : String → String → Except String (Option Bool))
    (ex : String → Except String ExecResponse) :
    (find_class_name pc = none →
      run_tool pc cf ex = RunResult.noClassMessage "No class name found in the code")
    ∧ (extract_markdown_code_blocks res = [] →
        on_message_pipeline res = Except.error "IndexError: list index out of range") := by
  constructor
  · intro h; unfold run_tool; rw [h]
  · intro h; unfold on_message_pipeline; rw [h]

/-- Witness for C5's amended statement at concrete inputs. -/
theorem parse_failure_reporting_witness :
    run_tool "print(42)" (fun _ _ => Except.ok (some true))
        (fun _ => Except.ok ⟨none, none, none⟩)
      = RunResult.noClassMessage "No class name found in the code"
    ∧ on_message_pipeline "hello there"
      = Except.error "IndexError: list index out of range" := by
  exact ⟨(parse_failure_reporting "print(42)" "hello there" _ _).1 (by decide),
         (parse_failure_reporting "print(42)" "hello there"
            (fun _ _ => Except.ok (some true)) (fun _ => Except.ok ⟨none, none, none⟩)).2
           (by decide)⟩

/-- C6: the provider performs a fresh credential acquisition exactly when
nothing is cached or the cached token expires within five minutes of the
current time, and the call returns the fresh token string when it
refreshes and the cached token string when it does not. -/
theorem access_token_provider_refresh_policy (cached : Option AccessToken)
    (now : Int) (fresh : AccessToken) :
    ((access_token_provider cached now fresh).2 = true ↔
      cached = none ∨ ∃ t, cached = some t ∧ t.expires_on < now + 5 * 60)
    ∧ ((access_token_provider cached now fresh).2 = true →
        (access_token_provider cached now fresh).1 = fresh.token)
    ∧ (∀ t, cached = some t → (access_token_provider cached now fresh).2 = false →
        (access_token_provider cached now fresh).1 = t.token) := by
  cases cached with
  | none => simp [access_token_provider]
  | some t =>
    simp only [access_token_provider]
    split_ifs with h <;> simp_all

/-- Witness for C6: a token expiring in four minutes triggers a refresh
and the fresh string is returned; a token expiring in ten minutes
triggers none and the cached string is returned. -/
theorem access_token_provider_refresh_policy_witness :
    (access_token_provider (some ⟨"cached-token", 240⟩) 0 ⟨"fresh-token", 100000⟩).2 = true
    ∧ (access_token_provider (some ⟨"cached-token", 240⟩) 0 ⟨"fresh-token", 100000⟩).1
      = "fresh-token"
    ∧ (access_token_provider (some ⟨"cached-token", 600⟩) 0 ⟨"fresh-token", 100000⟩).2 = false
    ∧ (access_token_provider (some ⟨"cached-token", 600⟩) 0 ⟨"fresh-token", 100000⟩).1
      = "cached-token" := by
  have h4 : (access_token_provider (some ⟨"cached-token", 240⟩) 0 ⟨"fresh-token", 100000⟩).2
      = true :=
    (access_token_provider_refresh_policy _ _ _).1.mpr (Or.inr ⟨_, rfl, by decide⟩)
  have h10 : (access_token_provider (some ⟨"cached-token", 600⟩) 0 ⟨"fresh-token", 100000⟩).2
      = false := by decide
  exact ⟨h4, (access_token_provider_refresh_policy _ _ _).2.1 h4, h10,
         (access_token_provider_refresh_policy _ _ _).2.2 _ rfl h10⟩

/-- C9: whenever _run returns the (result, response) pair, the result is
the response's "output" field when its "status" field equals "success"
and its "message" field otherwise, and the response is exactly what
execute returned for the extracted scene name. -/
theorem run_tool_result_mapping (pc : String)
    (cf : String → String → Except String (Option Bool))
    (ex : String → Except String ExecResponse)
    (res : Option String) (resp : ExecResponse)
    (h : run_tool pc cf ex = RunResult.ok res resp) :
    res = (if resp.status = some "success" then resp.output else resp.message)
    ∧ ∃ scene, find_class_name pc = some scene ∧ ex scene = Except.ok resp := by
  cases hf : find_class_name pc with
  | none => simp [run_tool, hf] at h
  | some scene =>
    cases hc : cf pc scene with
    | error e => simp [run_tool, hf, hc] at h
    | ok created =>
      by_cases hcr : created = some true
      · subst hcr
        cases hex : ex scene with
        | error e => simp [run_tool, hf, hc, hex] at h
        | ok response =>
          simp [run_tool, hf, hc, hex] at h
          obtain ⟨h1, h2⟩ := h
          subst h2
          exact ⟨h1.symm, scene, rfl, hex⟩
      · simp [run_tool, hf, hc, hcr] at h

/-- Witness for C9: the end-to-end success shape — status "success",
output "ok" — reports "ok", via _run applied at a concrete scene. -/
theorem run_tool_result_mapping_witness :
    (some "ok" : Option String)
      = (if (⟨some "success", some "ok", none⟩ : ExecResponse).status = some "success"
         then (⟨some "success", some "ok", none⟩ : ExecResponse).output
         else (⟨some "success", some "ok", none⟩ : ExecResponse).message)
    ∧ ∃ scene, find_class_name "class Explainer:\n  pass" = some scene
        ∧ (fun _ : String =>
            (Except.ok (⟨some "success", some "ok", none⟩ : ExecResponse) :
              Except String ExecResponse)) scene
          = Except.ok (⟨some "success", some "ok", none⟩ : ExecResponse) := by
  exact run_tool_result_mapping "class Explainer:\n  pass"
    (fun _ _ => Except.ok (some true))
    (fun _ => Except.ok ⟨some "success", some "ok", none⟩)
    (some "ok") ⟨some "success", some "ok", none⟩ (by decide)

/-- C10: when the endpoint is configured, the create request is built with
body exactly the filename line scene ++ ".py", a newline, and the code
verbatim — no JSON encoding, no sanitization — while the headers carry
the JSON content type. -/
theorem createfile_request_body_spec (endpoint sid token code scene : String)
    (h : endpoint ≠ "") :
    ∃ req, createfile_request endpoint sid token code scene = Except.ok req
      ∧ req.body = (scene ++ ".py") ++ "\n" ++ code
      ∧ ("Content-Type", "application/json") ∈ req.headers := by
  unfold createfile_request build_url
  rw [if_neg h]
  exact ⟨_, rfl, rfl, by simp⟩

/-- Witness for C10 at a concrete endpoint, scene and code (the code even
contains quotes and braces; it is sent verbatim). -/
theorem createfile_request_body_spec_witness :
    ∃ req, createfile_request "https://pool.example/" "sess-1" "tok"
        "print(1)\nprint(2)" "Explainer" = Except.ok req
      ∧ req.body = ("Explainer" ++ ".py") ++ "\n" ++ "print(1)\nprint(2)"
      ∧ ("Content-Type", "application/json") ∈ req.headers :=
  createfile_request_body_spec "https://pool.example/" "sess-1" "tok"
    "print(1)\nprint(2)" "Explainer" (by decide)

end ManimGenie
